import Mathlib

/-!
Shallow embedding of the clipboard-history daemon `clipd`
(files `src/clipd/src/db.rs`, `src/clipd/src/ipc.rs`, `src/clipd/src/model.rs`).

The SQLite table `entries` is modelled as a list of rows together with the
`AUTOINCREMENT` counter; `created_at` is stored by the code as an RFC3339
string whose lexicographic order coincides with chronological order, so it
is modelled as a `Nat`.  The schema declares `id INTEGER PRIMARY KEY
AUTOINCREMENT` and `hash TEXT NOT NULL UNIQUE`; states reachable through
the code therefore have pairwise-distinct ids and hashes, captured below by
the well-formedness predicate `Wf`.
-/

namespace Clipd

/-- `EntryKind` from `model.rs`. -/
inductive EntryKind where
  | Text
  | Url
  | Image
  | Rtf
deriving DecidableEq, Repr

/-- `Entry` from `model.rs`.  Binary payloads are byte lists. -/
structure Entry where
  id : Option Nat
  created_at : Nat
  kind : EntryKind
  text : Option String
  data : Option (List Nat)
  bytes_len : Nat
  hash : String
  source_process : Option String
  tags : List String
deriving DecidableEq, Repr

/-- One row of the SQLite `entries` table.  The `tags` column always holds a
`serde_json` serialization of a `Vec<String>` (every write goes through
`serde_json::to_string`), so it is modelled as the string list itself. -/
structure Row where
  id : Nat
  created_at : Nat
  kind : EntryKind
  text : Option String
  data : Option (List Nat)
  bytes_len : Nat
  hash : String
  source_process : Option String
  tags : List String
deriving DecidableEq, Repr

/-- The database: the `entries` table in rowid (insertion) order, the
`AUTOINCREMENT` counter, and the configured `max_entries`. -/
structure DB where
  rows : List Row
  nextId : Nat
  max_entries : Nat
deriving DecidableEq, Repr

/-- `entry_from_row` in `db.rs`: a row read back as an `Entry`. -/
def rowToEntry (r : Row) : Entry :=
  { id := some r.id
    created_at := r.created_at
    kind := r.kind
    text := r.text
    data := r.data
    bytes_len := r.bytes_len
    hash := r.hash
    source_process := r.source_process
    tags := r.tags }

/-- The `SELECT 1 FROM entries WHERE hash = ?1` existence probe used by
`insert_entry` and `import_from_json`. -/
def hashExists (db : DB) (h : String) : Bool :=
  db.rows.any (fun r => r.hash == h)

/-- The unconditional `INSERT INTO entries ...` statement: appends a fresh
row carrying the entry's fields, with the next autoincrement id. -/
def rawInsert (db : DB) (e : Entry) : DB :=
  { db with
    rows := db.rows ++
      [{ id := db.nextId
         created_at := e.created_at
         kind := e.kind
         text := e.text
         data := e.data
         bytes_len := e.bytes_len
         hash := e.hash
         source_process := e.source_process
         tags := e.tags }]
    nextId := db.nextId + 1 }

/-- The conditional-insert path shared by `insert_entry` and the
`import_from_json` loop: skip when the hash already exists, otherwise run
the `INSERT`. -/
def insertIfNew (db : DB) (e : Entry) : DB :=
  if hashExists db e.hash then db else rawInsert db e

/-- Ordering of rows by `created_at` ascending (the `ORDER BY created_at
ASC` of the eviction query). -/
def createdLe (a b : Row) : Prop := a.created_at ≤ b.created_at

/-- Ordering of rows by `created_at` descending (the `ORDER BY created_at
DESC` of `list_recent` and `search`). -/
def createdGe (a b : Row) : Prop := b.created_at ≤ a.created_at

instance : DecidableRel createdLe := fun a b => Nat.decLe _ _

instance : DecidableRel createdGe := fun a b => Nat.decLe _ _

instance : IsTotal Row createdLe := ⟨fun a b => Nat.le_total a.created_at b.created_at⟩

instance : IsTrans Row createdLe := ⟨fun _ _ _ h h' => Nat.le_trans h h'⟩

instance : IsTotal Row createdGe := ⟨fun a b => Nat.le_total b.created_at a.created_at⟩

instance : IsTrans Row createdGe := ⟨fun _ _ _ h h' => Nat.le_trans h' h⟩

/-- Rows sorted oldest first (`ORDER BY created_at ASC`); SQLite leaves the
order of equal timestamps unspecified, a stable sort fixes one choice. -/
def sortAsc (rows : List Row) : List Row := rows.insertionSort createdLe

/-- Rows sorted newest first (`ORDER BY created_at DESC`). -/
def sortDesc (rows : List Row) : List Row := rows.insertionSort createdGe

/-- `cleanup_old_entries` in `db.rs`: count the rows, and when the count
exceeds `max_entries` delete the `count - max_entries` rows selected by
`ORDER BY created_at ASC LIMIT to_delete`, identified by id. -/
def cleanup_old_entries (db : DB) : DB :=
  if db.rows.length > db.max_entries then
    let toDelete := db.rows.length - db.max_entries
    let victims := ((sortAsc db.rows).take toDelete).map (fun r => r.id)
    { db with rows := db.rows.filter (fun r => !(victims.contains r.id)) }
  else db

/-- `insert_entry` in `db.rs`: return unchanged on a duplicate hash,
otherwise insert the row and then run `cleanup_old_entries`. -/
def insert_entry (db : DB) (e : Entry) : DB :=
  if hashExists db e.hash then db else cleanup_old_entries (rawInsert db e)

/-- `list_recent` in `db.rs`: rows ordered by `created_at DESC`, limited,
read back as entries. -/
def list_recent (db : DB) (limit : Nat) : List Entry :=
  ((sortDesc db.rows).take limit).map rowToEntry

/-- A lowercase hexadecimal digit, for `serde_json` control-character
escapes. -/
def hexDigit (n : Nat) : Char :=
  if n < 10 then Char.ofNat (48 + n) else Char.ofNat (87 + n)

/-- `serde_json`'s escaping of one character inside a JSON string. -/
def escapeJsonChar (c : Char) : List Char :=
  if c = '"' then ['\\', '"']
  else if c = '\\' then ['\\', '\\']
  else if c = Char.ofNat 8 then ['\\', 'b']
  else if c = Char.ofNat 9 then ['\\', 't']
  else if c = Char.ofNat 10 then ['\\', 'n']
  else if c = Char.ofNat 12 then ['\\', 'f']
  else if c = Char.ofNat 13 then ['\\', 'r']
  else if c.toNat < 32 then
    ['\\', 'u', '0', '0', hexDigit (c.toNat / 16), hexDigit (c.toNat % 16)]
  else [c]

/-- A JSON string literal as `serde_json` writes it. -/
def jsonString (s : String) : String :=
  ⟨'"' :: (s.data.flatMap escapeJsonChar) ++ ['"']⟩

/-- `serde_json::to_string(&entry.tags)`: the `tags` column text. -/
def tagsToJson (tags : List String) : String :=
  "[" ++ String.intercalate "," (tags.map jsonString) ++ "]"

/-- SQLite's default `LIKE` fold: ASCII uppercase letters compare equal to
their lowercase forms (`PRAGMA case_sensitive_like` is never set). -/
def likeFold (c : Char) : Char :=
  if 'A' ≤ c ∧ c ≤ 'Z' then Char.ofNat (c.toNat + 32) else c

/-- Character comparison under SQLite `LIKE`. -/
def likeCharEq (p c : Char) : Bool := likeFold p == likeFold c

/-- SQLite `LIKE` pattern matching: `%` matches any sequence, `_` any one
character, other characters match ASCII-case-insensitively.  Fuel-indexed
so that the definition is structurally recursive; every step consumes at
least one character of pattern or subject, so fuel
`pattern.length + subject.length + 1` suffices. -/
def likeMatchFuel : Nat → List Char → List Char → Bool
  | 0, _, _ => false
  | _ + 1, [], s => s.isEmpty
  | fuel + 1, '%' :: ps, s =>
    likeMatchFuel fuel ps s ||
      (match s with
       | [] => false
       | _ :: s' => likeMatchFuel fuel ('%' :: ps) s')
  | _ + 1, '_' :: _, [] => false
  | fuel + 1, '_' :: ps, _ :: s => likeMatchFuel fuel ps s
  | _ + 1, _ :: _, [] => false
  | fuel + 1, p :: ps, c :: s => likeCharEq p c && likeMatchFuel fuel ps s

/-- `subject LIKE pattern` under SQLite's default semantics. -/
def sqlLike (pat subject : String) : Bool :=
  likeMatchFuel (pat.length + subject.length + 1) pat.data subject.data

/-- The search pattern `format!("%{}%", query)` built by `search`. -/
def likePat (q : String) : String := "%" ++ q ++ "%"

/-- The `WHERE text LIKE ?1 OR tags LIKE ?1` predicate of `search`, on an
entry's fields: a `NULL` text column never matches, the `tags` column holds
the JSON serialization of the tag list. -/
def entryMatchesLike (q : String) (e : Entry) : Bool :=
  (match e.text with
   | some t => sqlLike (likePat q) t
   | none => false) || sqlLike (likePat q) (tagsToJson e.tags)

/-- The same predicate on a table row. -/
def rowMatchesLike (q : String) (r : Row) : Bool :=
  entryMatchesLike q (rowToEntry r)

/-- `search` in `db.rs`: rows whose `text` or `tags` column matches
`%query%`, ordered by `created_at DESC`, limited, read back as entries. -/
def search (db : DB) (q : String) (limit : Nat) : List Entry :=
  ((sortDesc (db.rows.filter (rowMatchesLike q))).take limit).map rowToEntry

/-- The `SELECT tags FROM entries WHERE id = ?1` probe of the tag
operations: the first row with the given id (the id column is the primary
key). -/
def findRow (db : DB) (id : Nat) : Option Row := db.rows.find? (fun r => r.id == id)

/-- The `UPDATE entries SET tags = ?1 WHERE id = ?2` statement: every row
with the given id gets the new tag-column value. -/
def updateTags (db : DB) (id : Nat) (newTags : List String) : DB :=
  { db with
    rows := db.rows.map (fun s => if s.id == id then { s with tags := newTags } else s) }

/-- `add_tag` in `db.rs`: read the row's tags (error when the id is
absent), and when the tag is not already present append it and write the
tag list back. -/
def add_tag (db : DB) (id : Nat) (tag : String) : Except Unit DB :=
  match findRow db id with
  | none => Except.error ()
  | some r =>
    if r.tags.contains tag then Except.ok db
    else Except.ok (updateTags db id (r.tags ++ [tag]))

/-- `remove_tag` in `db.rs`: read the row's tags (error when the id is
absent), retain the tags different from the argument, and write the result
back unconditionally. -/
def remove_tag (db : DB) (id : Nat) (tag : String) : Except Unit DB :=
  match findRow db id with
  | none => Except.error ()
  | some r => Except.ok (updateTags db id (r.tags.filter (fun t => t != tag)))

/-- `export_to_json` in `db.rs`: the JSON file's content, as the list of
entries it serializes — all rows ordered by `created_at ASC`. -/
def export_to_json (db : DB) : List Entry :=
  (sortAsc db.rows).map rowToEntry

/-- The per-entry loop of `import_from_json`: for each parsed entry, skip
it (counting it as skipped) when its hash already exists, otherwise run the
`INSERT` (counting it as imported).  No eviction runs. -/
def importLoop (db : DB) (es : List Entry) (imported skipped : Nat) :
    DB × Nat × Nat :=
  match es with
  | [] => (db, imported, skipped)
  | e :: rest =>
    if hashExists db e.hash then importLoop db rest imported (skipped + 1)
    else importLoop (rawInsert db e) rest (imported + 1) skipped

/-- `import_from_json` in `db.rs`: the file is parsed before any row is
touched (`none` stands for a file that fails to parse as a JSON array of
entries, and yields an error with the store untouched); on success the
entries are fed one by one through the duplicate-hash check and the
`INSERT`.  The result pairs the operation outcome (imported and skipped
counts, or the parse error) with the store state after the call. -/
def import_from_json (db : DB) (parsed : Option (List Entry)) :
    Except Unit (Nat × Nat) × DB :=
  match parsed with
  | none => (Except.error (), db)
  | some es =>
    let r := importLoop db es 0 0
    (Except.ok (r.2.1, r.2.2), r.1)

/-- Wire `EntrySummary` from `ipc.rs`; `created_at` keeps the timestamp
abstraction of the model. -/
structure EntrySummary where
  id : Nat
  preview : String
  created_at : Nat
  kind : String
  source_process : Option String
  tags : List String
deriving DecidableEq, Repr

/-- The `kind` string of `From<Entry> for EntrySummary`. -/
def kindStr : EntryKind → String
  | EntryKind.Text => "text"
  | EntryKind.Url => "url"
  | EntryKind.Image => "image"
  | EntryKind.Rtf => "rtf"

/-- `From<Entry> for EntrySummary` in `ipc.rs`: a total conversion, with
`unwrap_or_default` on the id and a fixed placeholder for an absent text. -/
def entrySummaryFrom (e : Entry) : EntrySummary :=
  { id := e.id.getD 0
    preview := e.text.getD "<non-text entry>"
    created_at := e.created_at
    kind := kindStr e.kind
    source_process := e.source_process
    tags := e.tags }

/-- Wire `Response` from `ipc.rs`. -/
structure Response where
  entries : List EntrySummary
deriving DecidableEq, Repr

/-- `ServerInner::handle_list`: `list_recent(256)` mapped to summaries; a
pure read, paired with the unchanged store. -/
def handle_list (db : DB) : Response × DB :=
  (⟨(list_recent db 256).map entrySummaryFrom⟩, db)

/-- `ServerInner::handle_search`: an empty query lists the recent entries,
any other query runs the store search with the same limit 256. -/
def handle_search (db : DB) (query : String) : Response × DB :=
  if query.isEmpty then handle_list db
  else (⟨(search db query 256).map entrySummaryFrom⟩, db)

/-- `ServerInner::handle_paste`: logs the id and answers with
`handle_list`; the id is never looked up. -/
def handle_paste (db : DB) (id : Nat) : Response × DB :=
  handle_list db

/-- Well-formedness of a store state, as the SQLite schema enforces it:
ids are pairwise distinct and below the autoincrement counter
(`INTEGER PRIMARY KEY AUTOINCREMENT`), hashes are pairwise distinct
(`hash TEXT NOT NULL UNIQUE`). -/
def Wf (db : DB) : Prop :=
  (db.rows.map (fun r => r.id)).Nodup ∧
    (db.rows.map (fun r => r.hash)).Nodup ∧
    ∀ r ∈ db.rows, r.id < db.nextId

instance : DecidablePred Wf := fun db => by
  unfold Wf
  infer_instance

/-! ### Basic lemmas -/

theorem hashExists_iff {db : DB} {h : String} :
    hashExists db h = true ↔ ∃ r ∈ db.rows, r.hash = h := by
  simp [hashExists]

theorem countP_hash_le_one {l : List Row} {h : String}
    (hn : (l.map (fun r => r.hash)).Nodup) :
    l.countP (fun r => r.hash == h) ≤ 1 := by
  induction l with
  | nil => simp
  | cons a t ih =>
    rw [List.map_cons, List.nodup_cons] at hn
    by_cases ha : a.hash = h
    · have ht : t.countP (fun r => r.hash == h) = 0 := by
        rw [List.countP_eq_zero]
        intro x hx
        simp only [beq_iff_eq]
        intro hxh
        exact hn.1 (ha ▸ hxh ▸ List.mem_map_of_mem _ hx)
      rw [List.countP_cons_of_pos _ _ (by simp [ha]), ht]
    · rw [List.countP_cons_of_neg _ _ (by simp [ha])]
      exact ih hn.2

theorem cleanup_rows_sublist (db : DB) :
    (cleanup_old_entries db).rows.Sublist db.rows := by
  unfold cleanup_old_entries
  split
  · exact List.filter_sublist _
  · exact List.Sublist.refl _

theorem rawInsert_hash_map (db : DB) (e : Entry) :
    (rawInsert db e).rows.map (fun r => r.hash) =
      db.rows.map (fun r => r.hash) ++ [e.hash] := by
  simp [rawInsert]

theorem insert_entry_hash_nodup {db : DB} (e : Entry)
    (hn : (db.rows.map (fun r => r.hash)).Nodup) :
    ((insert_entry db e).rows.map (fun r => r.hash)).Nodup := by
  unfold insert_entry
  split
  · exact hn
  · rename_i hex
    have hni : ((rawInsert db e).rows.map (fun r => r.hash)).Nodup := by
      rw [rawInsert_hash_map]
      refine List.Nodup.append hn (List.nodup_singleton _) ?_
      intro x hx hx1
      rw [List.mem_singleton] at hx1
      subst hx1
      rcases List.mem_map.1 hx with ⟨r, hr, hrh⟩
      exact hex (hashExists_iff.2 ⟨r, hr, hrh⟩)
    exact hni.sublist ((cleanup_rows_sublist _).map _)

/-! ### Claim theorems (first batch) -/

/-- Claim C1: inserting an entry whose hash already exists in the store is
a no-op leaving the store literally unchanged, and inserting the same
content (hence the same hash) twice never leaves two rows with that hash in
a schema-well-formed store. -/
theorem insert_duplicate_noop (db : DB) (e : Entry) (hwf : Wf db) :
    (hashExists db e.hash = true → insert_entry db e = db) ∧
    (insert_entry (insert_entry db e) e).rows.countP
        (fun r => r.hash == e.hash) ≤ 1 := by
  constructor
  · intro hex
    unfold insert_entry
    rw [if_pos hex]
  · exact countP_hash_le_one
      (insert_entry_hash_nodup e (insert_entry_hash_nodup e hwf.2.1))

/-- Concrete instance discharging the hypotheses of `insert_duplicate_noop`. -/
theorem insert_duplicate_noop_witness :
    insert_entry (DB.mk [Row.mk 1 10 EntryKind.Text (some "hello") none 5 "h1" none []] 2 5)
        (Entry.mk none 30 EntryKind.Text (some "x") none 1 "h1" none []) =
      DB.mk [Row.mk 1 10 EntryKind.Text (some "hello") none 5 "h1" none []] 2 5 :=
  (insert_duplicate_noop
      (DB.mk [Row.mk 1 10 EntryKind.Text (some "hello") none 5 "h1" none []] 2 5)
      (Entry.mk none 30 EntryKind.Text (some "x") none 1 "h1" none [])
      (by decide)).1 (by decide)

/-- Claim C9: importing a file that fails to parse yields an error and
leaves the store exactly as it was — the parse happens before any row is
touched. -/
theorem import_parse_error_frame (db : DB) :
    (import_from_json db none).1 = Except.error () ∧
      (import_from_json db none).2 = db :=
  ⟨rfl, rfl⟩

/-- Claim C8: a `Paste{id}` request is answered exactly like a `List`
request for any id, looked-up or not, and the store is unchanged. -/
theorem paste_is_list (db : DB) (id : Nat) :
    handle_paste db id = handle_list db ∧ (handle_paste db id).2 = db :=
  ⟨rfl, rfl⟩

/-- Claim C5: a `Search` request with the empty query is answered exactly
like `list_recent` with the same limit 256. -/
theorem search_empty_is_list (db : DB) :
    handle_search db "" = handle_list db ∧
      (handle_search db "").1.entries = (list_recent db 256).map entrySummaryFrom :=
  ⟨rfl, rfl⟩

/-- Claim C10: the wire conversion defaults an absent id to `0` and an
absent text to the placeholder `"<non-text entry>"`; the conversion is a
total function. -/
theorem summary_defaults (e : Entry) :
    (e.id = none → (entrySummaryFrom e).id = 0) ∧
      (e.text = none → (entrySummaryFrom e).preview = "<non-text entry>") := by
  refine ⟨fun h => ?_, fun h => ?_⟩ <;> simp [entrySummaryFrom, h]

/-- Concrete instance discharging the hypotheses of `summary_defaults`. -/
theorem summary_defaults_witness :
    (entrySummaryFrom (Entry.mk none 7 EntryKind.Image none (some [1, 2]) 2 "hi" none [])).id = 0 ∧
      (entrySummaryFrom (Entry.mk none 7 EntryKind.Image none (some [1, 2]) 2 "hi" none [])).preview =
        "<non-text entry>" :=
  ⟨(summary_defaults _).1 rfl, (summary_defaults _).2 rfl⟩

theorem importLoop_fst (es : List Entry) :
    ∀ (db : DB) (i s : Nat), (importLoop db es i s).1 = es.foldl insertIfNew db := by
  induction es with
  | nil => intro db i s; rfl
  | cons e rest ih =>
    intro db i s
    rw [importLoop, List.foldl_cons, insertIfNew]
    by_cases h : hashExists db e.hash
    · rw [if_pos h, if_pos h, ih]
    · rw [if_neg h, if_neg h, ih]

theorem importLoop_counts (es : List Entry) :
    ∀ (db : DB) (i s : Nat),
      (importLoop db es i s).2.1 + (importLoop db es i s).2.2 = i + s + es.length := by
  induction es with
  | nil => intro db i s; rfl
  | cons e rest ih =>
    intro db i s
    rw [importLoop, List.length_cons]
    by_cases h : hashExists db e.hash
    · rw [if_pos h, ih]; omega
    · rw [if_neg h, ih]; omega

/-- Claim C3 fails on the code: importing runs the duplicate-hash
conditional insert but never the post-insert eviction, so on a store with
`max_entries = 1` importing two fresh entries leaves 2 rows, while feeding
the same two entries through `insert_entry` leaves 1 row. -/
theorem import_skips_eviction_cx :
    (import_from_json (DB.mk [] 1 1)
        (some [Entry.mk none 1 EntryKind.Text (some "a") none 1 "ha" none [],
               Entry.mk none 2 EntryKind.Text (some "b") none 1 "hb" none []])).2.rows.length = 2 ∧
      ([Entry.mk none 1 EntryKind.Text (some "a") none 1 "ha" none [],
        Entry.mk none 2 EntryKind.Text (some "b") none 1 "hb" none []].foldl insert_entry
          (DB.mk [] 1 1)).rows.length = 1 ∧
      (DB.mk ([] : List Row) 1 1).max_entries = 1 := by
  refine ⟨?_, ?_, rfl⟩ <;> decide

/-- Claim C3 as amended: importing a parsed file feeds every entry through
the same duplicate-hash conditional insert as live capture (duplicates
skipped without modification), but without the post-insert eviction — the
resulting store is the fold of the eviction-free conditional insert, and
the reported imported/skipped counts partition the file's entries. -/
theorem import_is_fold_insertIfNew (db : DB) (es : List Entry) :
    (import_from_json db (some es)).2 = es.foldl insertIfNew db ∧
      ∃ counts : Nat × Nat,
        (import_from_json db (some es)).1 = Except.ok counts ∧
          counts.1 + counts.2 = es.length := by
  refine ⟨importLoop_fst es db 0 0, ⟨((importLoop db es 0 0).2.1, (importLoop db es 0 0).2.2), rfl, ?_⟩⟩
  have h := importLoop_counts es db 0 0
  omega

theorem sortAsc_perm (l : List Row) : (sortAsc l).Perm l :=
  List.perm_insertionSort createdLe l

theorem sortDesc_perm (l : List Row) : (sortDesc l).Perm l :=
  List.perm_insertionSort createdGe l

theorem sortAsc_sorted (l : List Row) : List.Pairwise createdLe (sortAsc l) :=
  List.sorted_insertionSort createdLe l

theorem sortDesc_sorted (l : List Row) : List.Pairwise createdGe (sortDesc l) :=
  List.sorted_insertionSort createdGe l

theorem cleanup_rows_perm_drop {db : DB}
    (hid : (db.rows.map (fun r => r.id)).Nodup)
    (hgt : db.rows.length > db.max_entries) :
    (cleanup_old_entries db).rows.Perm
      ((sortAsc db.rows).drop (db.rows.length - db.max_entries)) := by
  set k := db.rows.length - db.max_entries with hk
  set victims := ((sortAsc db.rows).take k).map (fun r => r.id) with hv
  have hrows : (cleanup_old_entries db).rows =
      db.rows.filter (fun r => !(victims.contains r.id)) := by
    unfold cleanup_old_entries
    rw [if_pos hgt]
  have hperm : (db.rows.filter (fun r => !(victims.contains r.id))).Perm
      ((sortAsc db.rows).filter (fun r => !(victims.contains r.id))) :=
    (sortAsc_perm db.rows).symm.filter _
  have hidsort : ((sortAsc db.rows).map (fun r => r.id)).Nodup :=
    (((sortAsc_perm db.rows).map (fun r => r.id)).nodup_iff).2 hid
  have hsplit : (sortAsc db.rows).take k ++ (sortAsc db.rows).drop k = sortAsc db.rows :=
    List.take_append_drop k (sortAsc db.rows)
  have hdisj : ∀ r ∈ (sortAsc db.rows).drop k, r.id ∉ victims := by
    intro r hr hrid
    have hnd : (((sortAsc db.rows).take k).map (fun r => r.id) ++
        ((sortAsc db.rows).drop k).map (fun r => r.id)).Nodup := by
      rw [← List.map_append, hsplit]
      exact hidsort
    exact (List.nodup_append.1 hnd).2.2 hrid (List.mem_map_of_mem _ hr)
  have htake : ((sortAsc db.rows).take k).filter
      (fun r => !(victims.contains r.id)) = [] := by
    rw [List.filter_eq_nil_iff]
    intro r hr
    simp only [Bool.not_eq_true', Bool.not_eq_false, List.elem_iff]
    exact List.mem_map_of_mem _ hr
  have hdrop : ((sortAsc db.rows).drop k).filter
      (fun r => !(victims.contains r.id)) = (sortAsc db.rows).drop k := by
    rw [List.filter_eq_self]
    intro r hr
    simpa using hdisj r hr
  rw [hrows]
  calc (db.rows.filter (fun r => !(victims.contains r.id))).Perm
        ((sortAsc db.rows).filter (fun r => !(victims.contains r.id))) := hperm
    _ = ((sortAsc db.rows).take k ++ (sortAsc db.rows).drop k).filter
          (fun r => !(victims.contains r.id)) := by rw [hsplit]
    _ = (sortAsc db.rows).drop k := by
          rw [List.filter_append, htake, hdrop, List.nil_append]

theorem cleanup_length {db : DB}
    (hid : (db.rows.map (fun r => r.id)).Nodup)
    (hgt : db.rows.length > db.max_entries) :
    (cleanup_old_entries db).rows.length = db.max_entries := by
  have h := (cleanup_rows_perm_drop hid hgt).length_eq
  rw [List.length_drop, (sortAsc_perm db.rows).length_eq] at h
  omega

theorem cleanup_noop {db : DB} (hle : ¬ db.rows.length > db.max_entries) :
    cleanup_old_entries db = db := by
  unfold cleanup_old_entries
  rw [if_neg hle]

theorem cleanup_max_entries (db : DB) :
    (cleanup_old_entries db).max_entries = db.max_entries := by
  unfold cleanup_old_entries
  split <;> rfl

theorem insert_entry_max_entries (db : DB) (e : Entry) :
    (insert_entry db e).max_entries = db.max_entries := by
  unfold insert_entry
  split
  · rfl
  · rw [cleanup_max_entries]; rfl

theorem cleanup_nextId (db : DB) :
    (cleanup_old_entries db).nextId = db.nextId := by
  unfold cleanup_old_entries
  split <;> rfl

theorem rawInsert_wf {db : DB} (e : Entry) (hwf : Wf db)
    (hex : ¬ hashExists db e.hash = true) : Wf (rawInsert db e) := by
  obtain ⟨hid, hhash, hlt⟩ := hwf
  refine ⟨?_, ?_, ?_⟩
  · simp only [rawInsert, List.map_append, List.map_cons, List.map_nil]
    refine List.Nodup.append hid (List.nodup_singleton _) ?_
    intro x hx hx1
    rw [List.mem_singleton] at hx1
    subst hx1
    rcases List.mem_map.1 hx with ⟨r, hr, hrid⟩
    exact Nat.lt_irrefl _ (hrid ▸ hlt r hr)
  · rw [rawInsert_hash_map]
    refine List.Nodup.append hhash (List.nodup_singleton _) ?_
    intro x hx hx1
    rw [List.mem_singleton] at hx1
    subst hx1
    rcases List.mem_map.1 hx with ⟨r, hr, hrh⟩
    exact hex (hashExists_iff.2 ⟨r, hr, hrh⟩)
  · intro r hr
    simp only [rawInsert, List.mem_append, List.mem_singleton] at hr
    rcases hr with hr | hr
    · exact Nat.lt_succ_of_lt (hlt r hr)
    · subst hr
      exact Nat.lt_succ_self _

theorem cleanup_wf {db : DB} (hwf : Wf db) : Wf (cleanup_old_entries db) := by
  obtain ⟨hid, hhash, hlt⟩ := hwf
  have hsub := cleanup_rows_sublist db
  refine ⟨(hsub.map _).nodup hid, (hsub.map _).nodup hhash, ?_⟩
  intro r hr
  rw [cleanup_nextId]
  exact hlt r (hsub.subset hr)

theorem insert_entry_wf {db : DB} (e : Entry) (hwf : Wf db) :
    Wf (insert_entry db e) := by
  unfold insert_entry
  split
  · exact hwf
  · exact cleanup_wf (rawInsert_wf e hwf (by assumption))

theorem insert_entry_bound {db : DB} (e : Entry) (hwf : Wf db)
    (hb : db.rows.length ≤ db.max_entries) :
    (insert_entry db e).rows.length ≤ db.max_entries := by
  unfold insert_entry
  split
  · exact hb
  · rename_i hex
    have hwf' := rawInsert_wf e hwf hex
    by_cases hgt : (rawInsert db e).rows.length > (rawInsert db e).max_entries
    · have := cleanup_length hwf'.1 hgt
      simp only [rawInsert] at this ⊢
      omega
    · rw [cleanup_noop hgt]
      simp only [rawInsert, List.length_append, List.length_cons,
        List.length_nil] at hgt ⊢
      omega

/-- Claim C2: starting from a schema-well-formed store within its capacity
bound, every sequence of inserts keeps the row count at or below
`max_entries`; and whenever the count exceeds the maximum, the cleanup
deletes exactly the `count - max_entries` rows that come first in the
oldest-first ordering — the remaining rows are (a permutation of) the rest
of that ordering, the count drops to `max_entries`, and every deleted row
is at least as old as every kept row. -/
theorem insert_sequence_respects_bound (db : DB) (es : List Entry)
    (hwf : Wf db) (hb : db.rows.length ≤ db.max_entries) :
    (es.foldl insert_entry db).rows.length ≤ db.max_entries ∧
      (∀ d : DB, (d.rows.map (fun r => r.id)).Nodup →
        d.rows.length > d.max_entries →
        (cleanup_old_entries d).rows.Perm
            ((sortAsc d.rows).drop (d.rows.length - d.max_entries)) ∧
          (cleanup_old_entries d).rows.length = d.max_entries ∧
          ∀ v ∈ (sortAsc d.rows).take (d.rows.length - d.max_entries),
            ∀ kept ∈ (cleanup_old_entries d).rows,
              v.created_at ≤ kept.created_at) := by
  constructor
  · induction es generalizing db with
    | nil => exact hb
    | cons e rest ih =>
      rw [List.foldl_cons]
      have h1 := insert_entry_bound e hwf hb
      have h2 := insert_entry_max_entries db e
      have := ih (insert_entry db e) (insert_entry_wf e hwf) (h2 ▸ h1)
      rw [h2] at this
      exact this
  · intro d hid hgt
    refine ⟨cleanup_rows_perm_drop hid hgt, cleanup_length hid hgt, ?_⟩
    intro v hv kept hkept
    have hkd : kept ∈ (sortAsc d.rows).drop (d.rows.length - d.max_entries) :=
      (cleanup_rows_perm_drop hid hgt).mem_iff.1 hkept
    have hsorted := sortAsc_sorted d.rows
    rw [← List.take_append_drop (d.rows.length - d.max_entries)
      (sortAsc d.rows), List.pairwise_append] at hsorted
    exact hsorted.2.2 v hv kept hkd

/-- Concrete instance discharging the hypotheses of
`insert_sequence_respects_bound`: a one-row store of capacity 1 stays at
one row across two further inserts. -/
theorem insert_sequence_respects_bound_witness :
    (([Entry.mk none 20 EntryKind.Text (some "b") none 1 "hb" none [],
       Entry.mk none 30 EntryKind.Text (some "c") none 1 "hc" none []].foldl
        insert_entry
        (DB.mk [Row.mk 1 10 EntryKind.Text (some "a") none 1 "ha" none []] 2 1)).rows.length ≤ 1) :=
  (insert_sequence_respects_bound
      (DB.mk [Row.mk 1 10 EntryKind.Text (some "a") none 1 "ha" none []] 2 1)
      [Entry.mk none 20 EntryKind.Text (some "b") none 1 "hb" none [],
       Entry.mk none 30 EntryKind.Text (some "c") none 1 "hc" none []]
      (by decide) (by decide)).1

/-- Occurrence of `q` as an exact contiguous sublist of `s`, scanning every
suffix. -/
def occursList (q : List Char) : List Char → Bool
  | [] => q.isEmpty
  | c :: rest => q.isPrefixOf (c :: rest) || occursList q rest

/-- Spec-side predicate, following the spec's words for comparison with the
code's `LIKE`-based `search`: `q` occurs in `s` as a case-sensitive literal
substring. -/
def specOccursIn (q s : String) : Bool := occursList q.data s.data

/-- Spec-side predicate, following the spec's words: the row's preview text
or serialized tag set contains the query as a case-sensitive literal
substring. -/
def specSearchMatches (q : String) (e : Entry) : Bool :=
  (match e.text with
   | some t => specOccursIn q t
   | none => false) || specOccursIn q (tagsToJson e.tags)

/-- Claim C4 fails on the code: `search` is implemented with SQL
`LIKE '%query%'`, which compares ASCII letters case-insensitively (and
treats `%`/`_` in the query as wildcards), so searching `"HELLO"` returns
the row whose text is `"hello"` even though `"HELLO"` occurs in neither its
text nor its serialized tag set as a case-sensitive literal substring. -/
theorem search_not_case_sensitive_cx :
    search (DB.mk [Row.mk 1 10 EntryKind.Text (some "hello") none 5 "h1" none []] 2 5)
        "HELLO" 10 =
      [rowToEntry (Row.mk 1 10 EntryKind.Text (some "hello") none 5 "h1" none [])] ∧
      specSearchMatches "HELLO"
        (rowToEntry (Row.mk 1 10 EntryKind.Text (some "hello") none 5 "h1" none [])) = false := by
  constructor <;> decide

/-- Claim C4 as amended: `search(q, limit)` returns exactly those rows (up
to the limit) whose text column or serialized tag set matches the SQLite
`LIKE` pattern `%q%` — ASCII-case-insensitive, with `%` and `_` in `q`
acting as wildcards, and an absent text never matching — ordered by
`created_at` descending: every returned entry matches, the result is
sorted newest-first and within the limit, and when the matching rows fit
the limit none of them is omitted. -/
theorem search_like_characterization (db : DB) (q : String) (limit : Nat) :
    List.Pairwise (fun a b : Entry => b.created_at ≤ a.created_at)
        (search db q limit) ∧
      (∀ e ∈ search db q limit, entryMatchesLike q e = true) ∧
      (search db q limit).length ≤ limit ∧
      ((db.rows.filter (rowMatchesLike q)).length ≤ limit →
        ∀ r ∈ db.rows, rowMatchesLike q r = true →
          rowToEntry r ∈ search db q limit) := by
  refine ⟨?_, ?_, ?_, ?_⟩
  · rw [search, List.pairwise_map]
    exact (sortDesc_sorted _).sublist (List.take_sublist _ _)
  · intro e he
    rw [search] at he
    rcases List.mem_map.1 he with ⟨r, hr, hre⟩
    have hr' : r ∈ db.rows.filter (rowMatchesLike q) :=
      (sortDesc_perm _).mem_iff.1 ((List.take_sublist _ _).subset hr)
    have := List.of_mem_filter hr'
    rw [← hre]
    exact this
  · rw [search, List.length_map]
    exact List.length_take_le _ _
  · intro hlen r hr hm
    rw [search]
    have hlen' : (sortDesc (db.rows.filter (rowMatchesLike q))).length ≤ limit := by
      rw [(sortDesc_perm _).length_eq]
      exact hlen
    rw [List.take_of_length_le hlen']
    exact List.mem_map_of_mem _
      ((sortDesc_perm _).mem_iff.2 (List.mem_filter.2 ⟨hr, hm⟩))

/-- Concrete instance discharging the hypotheses of
`search_like_characterization`: with one matching row and a generous limit,
the matching row is returned. -/
theorem search_like_characterization_witness :
    rowToEntry (Row.mk 1 10 EntryKind.Text (some "hello") none 5 "h1" none []) ∈
      search (DB.mk [Row.mk 1 10 EntryKind.Text (some "hello") none 5 "h1" none []] 2 5)
        "ell" 5 :=
  (search_like_characterization
      (DB.mk [Row.mk 1 10 EntryKind.Text (some "hello") none 5 "h1" none []] 2 5)
      "ell" 5).2.2.2 (by decide)
    (Row.mk 1 10 EntryKind.Text (some "hello") none 5 "h1" none [])
    (by decide) (by decide)

theorem find?_map_update (id : Nat) (newTags : List String) (l : List Row) :
    (l.map (fun s => if s.id == id then { s with tags := newTags } else s)).find?
        (fun r => r.id == id) =
      (l.find? (fun r => r.id == id)).map (fun r => { r with tags := newTags }) := by
  induction l with
  | nil => rfl
  | cons a t ih =>
    by_cases ha : a.id = id
    · rw [List.map_cons, if_pos (by simp [ha]), List.find?_cons_of_pos _ (by simp [ha]),
        List.find?_cons_of_pos _ (by simp [ha])]
      rfl
    · rw [List.map_cons, if_neg (by simp [ha]), List.find?_cons_of_neg _ (by simp [ha]),
        List.find?_cons_of_neg _ (by simp [ha]), ih]

theorem findRow_updateTags (db : DB) (id : Nat) (newTags : List String) :
    findRow (updateTags db id newTags) id =
      (findRow db id).map (fun r => { r with tags := newTags }) :=
  find?_map_update id newTags db.rows

/-- Claim C6: for a stored row holding the tag at most once (the spec's
tag-set discipline), applying `add_tag` twice succeeds and leaves the tag
present exactly once in that row's tag list; and `remove_tag` of a tag
absent from the row succeeds and hands back that row with its tag list
unchanged — under distinct ids (the primary key) the whole store is
unchanged. -/
theorem tag_idempotence (db : DB) (id : Nat) (t : String) (r : Row)
    (hfind : findRow db id = some r) (hcount : r.tags.count t ≤ 1) :
    (∃ db₁ db₂ r₂, add_tag db id t = Except.ok db₁ ∧
        add_tag db₁ id t = Except.ok db₂ ∧
        findRow db₂ id = some r₂ ∧ r₂.tags.count t = 1) ∧
      (t ∉ r.tags →
        remove_tag db id t = Except.ok (updateTags db id r.tags) ∧
          findRow (updateTags db id r.tags) id = some r ∧
          ((db.rows.map (fun s => s.id)).Nodup → updateTags db id r.tags = db)) := by
  constructor
  · by_cases hmem : t ∈ r.tags
    · refine ⟨db, db, r, ?_, ?_, hfind, ?_⟩
      · simp only [add_tag, hfind]
        rw [if_pos (List.elem_iff.2 hmem)]
      · simp only [add_tag, hfind]
        rw [if_pos (List.elem_iff.2 hmem)]
      · have h1 : 0 < r.tags.count t := List.count_pos_iff.2 hmem
        omega
    · have hc0 : r.tags.count t = 0 := List.count_eq_zero.2 hmem
      refine ⟨updateTags db id (r.tags ++ [t]), updateTags db id (r.tags ++ [t]),
        { r with tags := r.tags ++ [t] }, ?_, ?_, ?_, ?_⟩
      · simp only [add_tag, hfind]
        rw [if_neg (by simpa using hmem)]
      · simp only [add_tag, findRow_updateTags, hfind, Option.map_some']
        rw [if_pos (by simp)]
      · rw [findRow_updateTags, hfind]
        rfl
      · simp [List.count_append, hc0]
  · intro hmem
    have hfilter : r.tags.filter (fun s => s != t) = r.tags := by
      rw [List.filter_eq_self]
      intro a ha
      simp only [bne_iff_ne, ne_eq, decide_eq_true_eq]
      intro hat
      exact hmem (hat ▸ ha)
    refine ⟨?_, ?_, ?_⟩
    · simp only [remove_tag, hfind]
      rw [hfilter]
    · rw [findRow_updateTags, hfind]
      rfl
    · intro hid
      have hr : r ∈ db.rows := List.mem_of_find?_eq_some hfind
      have hrid : r.id = id := by simpa using List.find?_some hfind
      unfold updateTags
      have hmap : db.rows.map
          (fun s => if s.id == id then { s with tags := r.tags } else s) = db.rows := by
        refine (List.map_congr_left ?_).trans (List.map_id db.rows)
        intro s hs
        by_cases hsid : s.id = id
        · have hsr : s = r :=
            List.inj_on_of_nodup_map hid hs hr (by rw [hsid, hrid])
          subst hsr
          rw [if_pos (by simp [hsid])]
          rfl
        · rw [if_neg (by simp [hsid])]
          rfl
      rw [hmap]

/-- Concrete instance discharging the hypotheses of `tag_idempotence`. -/
theorem tag_idempotence_witness :
    ∃ db₁ db₂ r₂,
      add_tag (DB.mk [Row.mk 1 10 EntryKind.Text (some "a") none 1 "ha" none []] 2 5) 1 "work" =
          Except.ok db₁ ∧
        add_tag db₁ 1 "work" = Except.ok db₂ ∧
        findRow db₂ 1 = some r₂ ∧ r₂.tags.count "work" = 1 :=
  (tag_idempotence
      (DB.mk [Row.mk 1 10 EntryKind.Text (some "a") none 1 "ha" none []] 2 5) 1 "work"
      (Row.mk 1 10 EntryKind.Text (some "a") none 1 "ha" none [])
      (by decide) (by decide)).1

theorem hashExists_rawInsert (db : DB) (e : Entry) (h : String) :
    hashExists (rawInsert db e) h = (hashExists db h || e.hash == h) := by
  simp [hashExists, rawInsert]

theorem importLoop_fresh (es : List Entry) :
    ∀ (db : DB) (i s : Nat), (es.map (fun e => e.hash)).Nodup →
      (∀ e ∈ es, hashExists db e.hash = false) →
      (importLoop db es i s).1.rows.map (fun r => (r.hash, r.tags)) =
        db.rows.map (fun r => (r.hash, r.tags)) ++
          es.map (fun e => (e.hash, e.tags)) := by
  induction es with
  | nil => intro db i s _ _; simp [importLoop]
  | cons e rest ih =>
    intro db i s hnd hfresh
    rw [List.map_cons, List.nodup_cons] at hnd
    rw [importLoop, if_neg (by rw [hfresh e (List.mem_cons_self e rest)]; simp)]
    have hfresh' : ∀ e' ∈ rest, hashExists (rawInsert db e) e'.hash = false := by
      intro e' he'
      rw [hashExists_rawInsert, hfresh e' (List.mem_cons_of_mem _ he'),
        Bool.false_or, beq_eq_false_iff_ne]
      intro hcon
      exact hnd.1 (hcon ▸ List.mem_map_of_mem _ he')
    rw [ih (rawInsert db e) (i + 1) s hnd.2 hfresh']
    simp [rawInsert]

theorem importLoop_allDup (es : List Entry) :
    ∀ (db : DB) (i s : Nat), (∀ e ∈ es, hashExists db e.hash = true) →
      (importLoop db es i s).1 = db := by
  induction es with
  | nil => intro db i s _; rfl
  | cons e rest ih =>
    intro db i s hdup
    rw [importLoop, if_pos (hdup e (List.mem_cons_self e rest))]
    exact ih db i (s + 1) (fun e' he' => hdup e' (List.mem_cons_of_mem _ he'))

/-- Claim C7: exporting a schema-well-formed store and importing the file
into an empty store of the same capacity reproduces the same multiset of
(hash, tag set) pairs; and importing that same file back into the original
store changes nothing, every entry being a duplicate by hash. -/
theorem export_import_roundtrip (db : DB) (n : Nat) (hwf : Wf db) :
    ((import_from_json (DB.mk [] n db.max_entries)
          (some (export_to_json db))).2.rows.map
        (fun r => (r.hash, r.tags))).Perm
        (db.rows.map (fun r => (r.hash, r.tags))) ∧
      (import_from_json db (some (export_to_json db))).2 = db := by
  constructor
  · have hhashes : ((export_to_json db).map (fun e => e.hash)).Nodup := by
      rw [export_to_json, List.map_map]
      have : ((sortAsc db.rows).map (fun r => r.hash)).Perm
          (db.rows.map (fun r => r.hash)) := (sortAsc_perm db.rows).map _
      exact this.nodup_iff.2 hwf.2.1
    have hfresh : ∀ e ∈ export_to_json db,
        hashExists (DB.mk [] n db.max_entries) e.hash = false := by
      intro e _
      rfl
    have h := importLoop_fresh (export_to_json db)
      (DB.mk [] n db.max_entries) 0 0 hhashes hfresh
    have h2 : (import_from_json (DB.mk [] n db.max_entries)
        (some (export_to_json db))).2 =
        (importLoop (DB.mk [] n db.max_entries) (export_to_json db) 0 0).1 := rfl
    rw [h2, h]
    simp only [List.map_nil, List.nil_append]
    rw [export_to_json, List.map_map]
    exact (sortAsc_perm db.rows).map _
  · have hdup : ∀ e ∈ export_to_json db, hashExists db e.hash = true := by
      intro e he
      rcases List.mem_map.1 he with ⟨r, hr, hre⟩
      refine hashExists_iff.2 ⟨r, (sortAsc_perm db.rows).mem_iff.1 hr, ?_⟩
      rw [← hre]
      rfl
    exact importLoop_allDup (export_to_json db) db 0 0 hdup

/-- Concrete instance discharging the hypothesis of
`export_import_roundtrip`. -/
theorem export_import_roundtrip_witness :
    (import_from_json
        (DB.mk [Row.mk 1 10 EntryKind.Text (some "a") none 1 "ha" none ["x"],
                Row.mk 2 20 EntryKind.Text (some "b") none 1 "hb" none []] 3 5)
        (some (export_to_json
          (DB.mk [Row.mk 1 10 EntryKind.Text (some "a") none 1 "ha" none ["x"],
                  Row.mk 2 20 EntryKind.Text (some "b") none 1 "hb" none []] 3 5)))).2 =
      DB.mk [Row.mk 1 10 EntryKind.Text (some "a") none 1 "ha" none ["x"],
             Row.mk 2 20 EntryKind.Text (some "b") none 1 "hb" none []] 3 5 :=
  (export_import_roundtrip
      (DB.mk [Row.mk 1 10 EntryKind.Text (some "a") none 1 "ha" none ["x"],
              Row.mk 2 20 EntryKind.Text (some "b") none 1 "hb" none []] 3 5)
      7 (by decide)).2

end Clipd
